import Mathlib

/-!
Verification of the devotional site's client-side pagination, infinite-scroll
trigger, local list cache and admin mutation logic, shallowly embedded from
the two Vue single-file components (the public reading view and the admin
dashboard view).  The external content store is modelled as a list of records
together with the ordered range query the components issue against it.
-/

namespace DailyDevotion

/-- A devotion record, the `Devotion` interface shared by both views.
Creation timestamps are modelled as naturals (ISO timestamps are totally
ordered); all other fields keep their textual form. -/
structure Devotion where
  id : Nat
  title : String
  verse : String
  content : String
  date : String
  createdAt : Nat
  deriving DecidableEq

/-- Insertion step of the store's ordering: place a record before the first
one with a strictly smaller creation timestamp. -/
def insertByCreatedAtDesc (d : Devotion) : List Devotion → List Devotion
  | [] => [d]
  | e :: es =>
    if e.createdAt < d.createdAt then d :: e :: es
    else e :: insertByCreatedAtDesc d es

/-- The store's `order('createdAt', ascending: false)` clause: records sorted
by creation timestamp, newest first. -/
def sortByCreatedAtDesc (l : List Devotion) : List Devotion :=
  l.foldr insertByCreatedAtDesc []

/-- The reading view's query `select('*').order(...).range(lo, hi)`: the
inclusive slice `[lo, hi]` of the ordered table. -/
def fetchRange (store : List Devotion) (lo hi : Nat) : List Devotion :=
  ((sortByCreatedAtDesc store).drop lo).take (hi + 1 - lo)

/-- The admin dashboard's query `select('*').order(...)` with no range: the
whole ordered table. -/
def fetchAll (store : List Devotion) : List Devotion :=
  sortByCreatedAtDesc store

/-- The reading view's `pageSize` constant. -/
def pageSize : Nat := 9

/-- The reactive state of the reading view that the pagination logic touches.
`pending` records the in-flight request of `loadDevotions`, carrying the
captured `initial` flag and the window start `from`; it is `none` when no
request is awaiting its response. -/
structure ReadState where
  devotions : List Devotion
  loading : Bool
  loadingMore : Bool
  hasMore : Bool
  error : Option String
  pending : Option (Bool × Nat)
  deriving DecidableEq

/-- The synchronous first half of `loadDevotions(initial)`, up to the `await`
on the store query: set the busy flag, clear the cache and reset `hasMore` on
an initial load, and record the requested window start.  The `true` in the
result marks that a request was issued. -/
def startLoad (s : ReadState) (initial : Bool) : ReadState × Bool :=
  let s1 :=
    if initial then
      { s with loading := true, devotions := [], hasMore := true }
    else
      { s with loadingMore := true }
  let lo : Nat := if initial then 0 else s1.devotions.length
  ({ s1 with pending := some (initial, lo) }, true)

/-- The second half of `loadDevotions` once the store query settles.  `none`
models the error branch (`err` set): the error message is surfaced and the
cache is untouched.  `some items` models success: items are appended (or
replace the cache on an initial load) and a short page clears `hasMore`. -/
def settleLoad (s : ReadState) (initial : Bool) (res : Option (List Devotion)) :
    ReadState :=
  let s1 :=
    match res with
    | none =>
      { s with error := some "Unable to load devotions. Please try again later." }
    | some items =>
      { s with
          devotions := if initial then items else s.devotions ++ items,
          hasMore := if items.length < pageSize then false else s.hasMore }
  { s1 with loading := false, loadingMore := false, pending := none }

/-- The two external events the reading view's pagination reacts to after the
mount: the IntersectionObserver callback on the sentinel element, and the
settling of the in-flight store query (with `none` for a failed fetch). -/
inductive Event where
  | sentinel (isIntersecting : Bool)
  | settle (res : Option (List Devotion))
  deriving DecidableEq

/-- One reaction of the reading view to an event.  The second component tells
whether a new store request was issued by this event.  The sentinel callback
is the `useIntersectionObserver` guard: a fetch only starts when the entry
intersects, `hasMore` holds and neither `loading` nor `loadingMore` is set. -/
def step (s : ReadState) : Event → ReadState × Bool
  | .sentinel vis =>
    if vis && s.hasMore && !s.loadingMore && !s.loading then startLoad s false
    else (s, false)
  | .settle res =>
    match s.pending with
    | some (initial, _) => (settleLoad s initial res, false)
    | none => (s, false)

/-- The state right after `onMounted(() => loadDevotions(true))` ran its
synchronous half: the refs at their declared initial values with the initial
page request in flight. -/
def mountedState : ReadState :=
  (startLoad
    { devotions := [], loading := true, loadingMore := false, hasMore := true,
      error := none, pending := none } true).1

/-- Run a sequence of events through the reading view. -/
def runTrace (s : ReadState) : List Event → ReadState
  | [] => s
  | e :: es => runTrace (step s e).1 es

/-- Number of store requests a sequence of events makes the view issue. -/
def fetchCount (s : ReadState) : List Event → Nat
  | [] => 0
  | e :: es => (if (step s e).2 then 1 else 0) + fetchCount (step s e).1 es

/-- Event sequence of a run of successful `loadNext` calls: for each page the
sentinel becomes visible and the issued request settles with that page. -/
def loadNextEvents : List (List Devotion) → List Event
  | [] => []
  | p :: ps => Event.sentinel true :: Event.settle (some p) :: loadNextEvents ps

/-- The states of the reading view reachable from the mounted state. -/
inductive Reachable : ReadState → Prop where
  | mounted : Reachable mountedState
  | next : ∀ {s : ReadState} (e : Event), Reachable s → Reachable (step s e).1

/-- The mutable fields sent by the admin form on update (already trimmed). -/
structure Patch where
  title : String
  verse : String
  content : String
  date : String
  deriving DecidableEq

/-- The object literal `{ ...existing, title, verse, content, date }` built in
`updateDevotion`: mutable fields replaced, `id` and `createdAt` kept. -/
def patchDevotion (d : Devotion) (p : Patch) : Devotion :=
  { d with title := p.title, verse := p.verse, content := p.content,
           date := p.date }

/-- The cache mutation of `updateDevotion` after a successful store update:
`findIndex` on the id, then in-place replacement at that index; the cache is
untouched when the id is absent. -/
def applyUpdate (cache : List Devotion) (i : Nat) (p : Patch) : List Devotion :=
  match cache.findIdx? (fun d => d.id == i) with
  | none => cache
  | some idx =>
    match cache[idx]? with
    | none => cache
    | some d => cache.set idx (patchDevotion d p)

/-- The cache mutation of `deleteDevotion` after a successful store delete:
`devotions.value.filter((d) => d.id !== devotion.id)`. -/
def applyDelete (cache : List Devotion) (i : Nat) : List Devotion :=
  cache.filter (fun d => d.id != i)

/-- Admin `updateDevotion` as a cache transformer: when the store update
fails the function returns before the cache is touched. -/
def updateDevotion (cache : List Devotion) (i : Nat) (p : Patch) (ok : Bool) :
    List Devotion :=
  if ok then applyUpdate cache i p else cache

/-- Admin `deleteDevotion` as a cache transformer: when the store delete
fails the function returns before the cache is touched. -/
def deleteDevotion (cache : List Devotion) (i : Nat) (ok : Bool) :
    List Devotion :=
  if ok then applyDelete cache i else cache

/-- Admin `createDevotion` on store and cache: on success the record is
inserted and the cache is reloaded in full by `loadDevotions()`; on failure
the function returns with both untouched.  Result is (store, cache). -/
def createDevotion (store cache : List Devotion) (r : Devotion) (ok : Bool) :
    List Devotion × List Devotion :=
  if ok then (store ++ [r], fetchAll (store ++ [r])) else (store, cache)

/-- Combined state for the selection invariant: the reading view's cache and
modal selection next to the admin dashboard's cache.  Each view owns its own
cache; the admin mutations act on the admin cache only. -/
structure AppState where
  readCache : List Devotion
  selected : Option Devotion
  adminCache : List Devotion
  deriving DecidableEq

/-- Events of the combined system: a further page settling in the reading
view (success or failure), opening the devotion rendered at an index of the
reading cache (`openDevotion` is only ever called on `devotions[0]` or an
element of the `v-for` over the cache), closing the modal, and the admin's
delete and update. -/
inductive AppEvent where
  | pageLoaded (items : List Devotion)
  | pageFailed
  | openAt (n : Nat)
  | close
  | adminDelete (i : Nat) (ok : Bool)
  | adminUpdate (i : Nat) (p : Patch) (ok : Bool)

/-- One transition of the combined system. -/
def appStep (s : AppState) : AppEvent → AppState
  | .pageLoaded items => { s with readCache := s.readCache ++ items }
  | .pageFailed => s
  | .openAt n =>
    match s.readCache[n]? with
    | some d => { s with selected := some d }
    | none => s
  | .close => { s with selected := none }
  | .adminDelete i ok => { s with adminCache := deleteDevotion s.adminCache i ok }
  | .adminUpdate i p ok =>
    { s with adminCache := updateDevotion s.adminCache i p ok }

/-- Initial combined state: each view mounted with its initially loaded cache
and no selection open. -/
def appInit (page0 admin0 : List Devotion) : AppState :=
  { readCache := page0, selected := none, adminCache := admin0 }

/-- The reachable states of the combined system. -/
inductive AppReachable : AppState → Prop where
  | init : ∀ page0 admin0, AppReachable (appInit page0 admin0)
  | next : ∀ {s : AppState} (e : AppEvent), AppReachable s → AppReachable (appStep s e)

/-- JavaScript `verse.split('|')` on the character list of the string (the
separator is the single character bar). -/
def splitBar : List Char → List (List Char)
  | [] => [[]]
  | c :: cs =>
    if c = '|' then [] :: splitBar cs
    else
      match splitBar cs with
      | [] => [c] :: []
      | g :: gs => (c :: g) :: gs

/-- JavaScript `String.prototype.trim` on a character list. -/
def jsTrim (l : List Char) : List Char :=
  ((l.dropWhile Char.isWhitespace).reverse.dropWhile Char.isWhitespace).reverse

/-- The reading view's `getVerseRefDisplay`: destructure `verse.split('|')`
into its first element, default it to the empty string, and trim it. -/
def getVerseRefDisplay (verse : List Char) : List Char :=
  jsTrim ((splitBar verse).headD [])

/-- Modelled from the spec's words, for comparison with the source function:
the reference is "the substring of the verse before the first bar character"
(the whole verse when it contains none). -/
def verseRefSpec (verse : List Char) : List Char :=
  verse.takeWhile (fun c => c != '|')

/-- Record number `k` of the twenty-record scenario store: created at time
`k` (so `T1 < T2 < ... < T20` is `1 < 2 < ... < 20`). -/
def rec20 (k : Nat) : Devotion :=
  { id := k, title := "", verse := "", content := "", date := "", createdAt := k }

/-- The scenario store: twenty records created at times `T1 .. T20`, inserted
in creation order. -/
def store20 : List Devotion :=
  (List.range 20).map (fun k => rec20 (k + 1))

/-- Demonstration record with creation time 10, used by witnesses. -/
def dA : Devotion :=
  { id := 1, title := "a", verse := "v", content := "c", date := "d",
    createdAt := 10 }

/-- Demonstration record with creation time 20, used by witnesses. -/
def dB : Devotion :=
  { id := 2, title := "b", verse := "w", content := "e", date := "f",
    createdAt := 20 }

/-- Demonstration patch, used by witnesses. -/
def pX : Patch :=
  { title := "nt", verse := "nv", content := "nc", date := "nd" }

/-- A reading view at rest with an empty cache: nothing loaded yet, nothing
in flight, `hasMore` still true. -/
def idleEmptyState : ReadState :=
  { devotions := [], loading := false, loadingMore := false, hasMore := true,
    error := none, pending := none }

/-- Scenario: the state after the initial load settled with the first page
`[0, 8]` of the twenty-record store. -/
def scState1 : ReadState :=
  (step mountedState (Event.settle (some (fetchRange store20 0 8)))).1

/-- Scenario: the sentinel becomes visible after the initial load. -/
def scFetch2 : ReadState × Bool :=
  step scState1 (Event.sentinel true)

/-- Scenario: the first `loadNext` settled with the page `[9, 17]`. -/
def scState2 : ReadState :=
  (step scFetch2.1 (Event.settle (some (fetchRange store20 9 17)))).1

/-- Scenario: the sentinel becomes visible again. -/
def scFetch3 : ReadState × Bool :=
  step scState2 (Event.sentinel true)

/-- Scenario: the second `loadNext` settled with the short page `[18, 26]`. -/
def scState3 : ReadState :=
  (step scFetch3.1 (Event.settle (some (fetchRange store20 18 26)))).1

/-- A successful `loadNext` round (sentinel visible, request settles with the
page) appends the page to the cache, clears the busy flags, and clears
`hasMore` exactly when the page is short. -/
theorem run_loadNext (s : ReadState) (p : List Devotion) (rest : List Event)
    (hl : s.loading = false) (hm : s.loadingMore = false) (hh : s.hasMore = true) :
    runTrace s (Event.sentinel true :: Event.settle (some p) :: rest) =
      runTrace { s with devotions := s.devotions ++ p,
                        hasMore := if p.length < pageSize then false else s.hasMore,
                        loading := false, loadingMore := false, pending := none }
        rest := by
  simp [runTrace, step, startLoad, settleLoad, hl, hm, hh]

/-- Running a sequence of successful `loadNext` rounds appends the
concatenation of the pages to the cache, provided every page but the last is
full (otherwise the trigger would stop issuing fetches). -/
theorem loadNext_trace (pages : List (List Devotion)) (s : ReadState)
    (hl : s.loading = false) (hm : s.loadingMore = false) (hh : s.hasMore = true)
    (hp : ∀ p ∈ pages.dropLast, pageSize ≤ p.length) :
    (runTrace s (loadNextEvents pages)).devotions = s.devotions ++ pages.flatten := by
  induction pages generalizing s with
  | nil => simp [loadNextEvents, runTrace]
  | cons p ps ih =>
    rw [loadNextEvents, run_loadNext s p _ hl hm hh]
    cases ps with
    | nil => simp [loadNextEvents, runTrace]
    | cons q qs =>
      have hplen : pageSize ≤ p.length := by
        apply hp
        simp [List.dropLast]
      rw [if_neg (Nat.not_lt.mpr hplen)]
      have hres := ih { devotions := s.devotions ++ p, loading := false,
                        loadingMore := false, hasMore := s.hasMore,
                        error := s.error, pending := none } rfl rfl hh (by
        intro q2 hq2
        apply hp
        simp [List.dropLast] at hq2 ⊢
        exact Or.inr hq2)
      rw [hres]
      simp

/-- Once `hasMore` is false, a single event neither issues a fetch nor
resurrects `hasMore`. -/
theorem step_hasMore_false (s : ReadState) (e : Event) (hs : s.hasMore = false) :
    (step s e).2 = false ∧ (step s e).1.hasMore = false := by
  cases e with
  | sentinel v => simp [step, hs]
  | settle res =>
    cases hpend : s.pending with
    | none => simp [step, hpend, hs]
    | some pr =>
      obtain ⟨b, lo⟩ := pr
      cases res with
      | none => simp [step, hpend, settleLoad, hs]
      | some items => simp [step, hpend, settleLoad, hs]

/-- Once `hasMore` is false, no sequence of later events issues a fetch, and
`hasMore` stays false. -/
theorem exhausted_trace (s : ReadState) (tr : List Event) (hs : s.hasMore = false) :
    fetchCount s tr = 0 ∧ (runTrace s tr).hasMore = false := by
  induction tr generalizing s with
  | nil => simpa [fetchCount, runTrace]
  | cons e es ih =>
    obtain ⟨h1, h2⟩ := step_hasMore_false s e hs
    have := ih (step s e).1 h2
    simp [fetchCount, runTrace, h1, this]

/-- Invariant of the reachable reading-view states: whenever a request is in
flight, one of the two busy flags is set. -/
theorem single_flight_inv (s : ReadState) (h : Reachable s) :
    s.pending.isSome = true → (s.loading || s.loadingMore) = true := by
  induction h with
  | mounted => intro _; rfl
  | @next s e hs ih =>
    cases e with
    | sentinel v =>
      by_cases hg : (v && s.hasMore && !s.loadingMore && !s.loading) = true
      · simp [step, hg, startLoad]
      · simp only [step, if_neg hg]
        exact ih
    | settle res =>
      cases hpend : s.pending with
      | none => simp [step, hpend]
      | some pr =>
        obtain ⟨b, lo⟩ := pr
        simp [step, hpend, settleLoad]

/-- Index of the unique matching id under `findIndex`, when the prefix does
not contain the id. -/
theorem findIdx_id_append (l₁ : List Devotion) (d : Devotion) (l₂ : List Devotion)
    (i : Nat) (h₁ : ∀ a ∈ l₁, a.id ≠ i) (hd : d.id = i) :
    (l₁ ++ d :: l₂).findIdx? (fun a => a.id == i) = some l₁.length := by
  induction l₁ with
  | nil => simp [List.findIdx?_cons, hd]
  | cons a l₁ ih =>
    have ha : (a.id == i) = false := by
      simp [h₁ a (List.mem_cons_self a l₁)]
    simp only [List.cons_append, List.findIdx?_cons, ha, if_false,
      List.findIdx?_succ, Bool.false_eq_true, if_neg]
    rw [ih (fun b hb => h₁ b (List.mem_cons_of_mem a hb))]
    simp

/-- The in-place replacement of `updateDevotion` when the id sits at a known
position and the prefix does not contain it. -/
theorem applyUpdate_found (l₁ : List Devotion) (d : Devotion) (l₂ : List Devotion)
    (i : Nat) (p : Patch) (h₁ : ∀ a ∈ l₁, a.id ≠ i) (hd : d.id = i) :
    applyUpdate (l₁ ++ d :: l₂) i p = l₁ ++ patchDevotion d p :: l₂ := by
  have hget : (l₁ ++ d :: l₂)[l₁.length]? = some d := by
    rw [List.getElem?_append_right (Nat.le_refl _)]
    simp
  simp only [applyUpdate, findIdx_id_append l₁ d l₂ i h₁ hd, hget]
  rw [List.set_append, if_neg (by simp)]
  simp

/-- `updateDevotion` leaves the cache alone when no entry carries the id. -/
theorem applyUpdate_absent (cache : List Devotion) (i : Nat) (p : Patch)
    (h : ∀ a ∈ cache, a.id ≠ i) :
    applyUpdate cache i p = cache := by
  have hnone : cache.findIdx? (fun a => a.id == i) = none := by
    rw [List.findIdx?_eq_none_iff]
    intro x hx
    simp [h x hx]
  rw [applyUpdate, hnone]

/-- The filter of `deleteDevotion` removes exactly the one entry with the id
when neither side of the split contains it again. -/
theorem applyDelete_found (l₁ : List Devotion) (d : Devotion) (l₂ : List Devotion)
    (i : Nat) (h₁ : ∀ a ∈ l₁, a.id ≠ i) (h₂ : ∀ a ∈ l₂, a.id ≠ i) (hd : d.id = i) :
    applyDelete (l₁ ++ d :: l₂) i = l₁ ++ l₂ := by
  rw [applyDelete, List.filter_append, List.filter_cons]
  have hdd : (d.id != i) = false := by simp [hd]
  rw [hdd]
  have k₁ : List.filter (fun a => a.id != i) l₁ = l₁ :=
    List.filter_eq_self.mpr (fun a ha => by simp [h₁ a ha])
  have k₂ : List.filter (fun a => a.id != i) l₂ = l₂ :=
    List.filter_eq_self.mpr (fun a ha => by simp [h₂ a ha])
  simp [k₁, k₂]

/-- Unique ids: splitting the cache at an entry, no other entry shares its
id. -/
theorem nodup_split_ne (l₁ : List Devotion) (d : Devotion) (l₂ : List Devotion)
    (hnd : ((l₁ ++ d :: l₂).map (fun a => a.id)).Nodup) :
    (∀ a ∈ l₁, a.id ≠ d.id) ∧ (∀ a ∈ l₂, a.id ≠ d.id) := by
  rw [List.map_append, List.nodup_append] at hnd
  obtain ⟨h1, h2, hdisj⟩ := hnd
  constructor
  · intro a ha heq
    exact hdisj (List.mem_map_of_mem _ ha) (by simp [heq])
  · intro a ha heq
    rw [List.map_cons, List.nodup_cons] at h2
    exact h2.1 (by rw [← heq]; exact List.mem_map_of_mem _ ha)

/-- Inserting into the ordered list permutes consing. -/
theorem insertDesc_perm (d : Devotion) (l : List Devotion) :
    List.Perm (insertByCreatedAtDesc d l) (d :: l) := by
  induction l with
  | nil => simp [insertByCreatedAtDesc]
  | cons e es ih =>
    rw [insertByCreatedAtDesc]
    by_cases hc : e.createdAt < d.createdAt
    · simp [hc]
    · rw [if_neg hc]
      exact (List.Perm.cons e ih).trans (List.Perm.swap d e es)

/-- The store ordering is a permutation of the table. -/
theorem sortDesc_perm (l : List Devotion) :
    List.Perm (sortByCreatedAtDesc l) l := by
  induction l with
  | nil => simp [sortByCreatedAtDesc]
  | cons e es ih =>
    rw [sortByCreatedAtDesc, List.foldr_cons]
    exact (insertDesc_perm e _).trans (List.Perm.cons e ih)

/-- Insertion preserves the newest-first ordering. -/
theorem sorted_insertDesc (d : Devotion) (l : List Devotion)
    (h : l.Pairwise (fun a b => b.createdAt ≤ a.createdAt)) :
    (insertByCreatedAtDesc d l).Pairwise (fun a b => b.createdAt ≤ a.createdAt) := by
  induction l with
  | nil => simp [insertByCreatedAtDesc]
  | cons e es ih =>
    rw [List.pairwise_cons] at h
    obtain ⟨he, hes⟩ := h
    rw [insertByCreatedAtDesc]
    by_cases hc : e.createdAt < d.createdAt
    · rw [if_pos hc, List.pairwise_cons]
      refine ⟨?_, List.pairwise_cons.mpr ⟨he, hes⟩⟩
      intro a ha
      rcases List.mem_cons.mp ha with rfl | ha
      · exact Nat.le_of_lt hc
      · exact Nat.le_trans (he a ha) (Nat.le_of_lt hc)
    · rw [if_neg hc, List.pairwise_cons]
      refine ⟨?_, ih hes⟩
      intro a ha
      have ha2 : a ∈ d :: es := (insertDesc_perm d es).mem_iff.mp ha
      rcases List.mem_cons.mp ha2 with rfl | ha2
      · exact Nat.le_of_not_lt hc
      · exact he a ha2

/-- The store ordering is sorted newest first. -/
theorem sorted_sortDesc (l : List Devotion) :
    (sortByCreatedAtDesc l).Pairwise (fun a b => b.createdAt ≤ a.createdAt) := by
  induction l with
  | nil => simp [sortByCreatedAtDesc]
  | cons e es ih =>
    rw [sortByCreatedAtDesc, List.foldr_cons]
    exact sorted_insertDesc e _ ih

/-- A record with a strictly greatest creation timestamp comes out first in
the store ordering. -/
theorem head_of_strict_max (store : List Devotion) (r : Devotion)
    (h : ∀ d ∈ store, d.createdAt < r.createdAt) :
    (sortByCreatedAtDesc (store ++ [r])).head? = some r := by
  have hperm := sortDesc_perm (store ++ [r])
  have hsorted := sorted_sortDesc (store ++ [r])
  have hr : r ∈ sortByCreatedAtDesc (store ++ [r]) :=
    hperm.mem_iff.mpr (by simp)
  cases hl : sortByCreatedAtDesc (store ++ [r]) with
  | nil => rw [hl] at hr; cases hr
  | cons hd tl =>
    rw [hl] at hr hsorted hperm
    rw [List.pairwise_cons] at hsorted
    have hhd : hd ∈ store ++ [r] := hperm.mem_iff.mp (List.mem_cons_self hd tl)
    rcases List.mem_append.mp hhd with hhd | hhd
    · exfalso
      have hlt : hd.createdAt < r.createdAt := h hd hhd
      rcases List.mem_cons.mp hr with rfl | hr
      · exact Nat.lt_irrefl _ hlt
      · exact Nat.not_le.mpr hlt (hsorted.1 r hr)
    · simp only [List.mem_singleton] at hhd
      rw [hhd]
      rfl

/-- JavaScript split never yields an empty group list. -/
theorem splitBar_ne_nil (l : List Char) : splitBar l ≠ [] := by
  induction l with
  | nil => simp [splitBar]
  | cons c cs ih =>
    rw [splitBar]
    by_cases hc : c = '|'
    · simp [hc]
    · rw [if_neg hc]
      cases h : splitBar cs with
      | nil => simp
      | cons g gs => simp

/-- The first group of the split is the prefix of the string before the
first bar. -/
theorem splitBar_head (l : List Char) :
    (splitBar l).headD [] = l.takeWhile (fun c => c != '|') := by
  induction l with
  | nil => simp [splitBar]
  | cons c cs ih =>
    rw [splitBar, List.takeWhile]
    by_cases hc : c = '|'
    · simp [hc]
    · rw [if_neg hc]
      cases h : splitBar cs with
      | nil => exact absurd h (splitBar_ne_nil cs)
      | cons g gs =>
        rw [h] at ih
        simp only [List.headD] at ih
        have hb : (c != '|') = true := by simp [hc]
        simp [hb, ih]

/-- C1: for every sequence of successful `loadNext()` calls starting from an
empty cache, the cache equals the concatenation of the received pages in
fetch order, and its length is the sum of the page sizes. -/
theorem c1_cache_concat_of_pages (s : ReadState) (pages : List (List Devotion))
    (h0 : s.devotions = []) (hl : s.loading = false) (hm : s.loadingMore = false)
    (hh : s.hasMore = true)
    (hp : ∀ p ∈ pages.dropLast, pageSize ≤ p.length) :
    (runTrace s (loadNextEvents pages)).devotions = pages.flatten ∧
    (runTrace s (loadNextEvents pages)).devotions.length
      = (pages.map List.length).sum := by
  have h := loadNext_trace pages s hl hm hh hp
  rw [h0, List.nil_append] at h
  exact ⟨h, by rw [h]; exact List.length_flatten pages⟩

/-- C1 witness: one successful `loadNext` call from the idle empty state
loads exactly its page. -/
theorem c1_witness :
    (runTrace idleEmptyState (loadNextEvents [[dA]])).devotions = [dA] ∧
    (runTrace idleEmptyState (loadNextEvents [[dA]])).devotions.length = 1 := by
  have h := c1_cache_concat_of_pages idleEmptyState [[dA]] rfl rfl rfl rfl (by decide)
  exact ⟨h.1, h.2⟩

/-- C2: with `pageSize = 9` and a store of twenty records created at times
`T1 < ... < T20`, the initial load yields `T20 .. T12` with `hasMore` true,
the first `loadNext` yields `T11 .. T3` with `hasMore` true, the second
yields the short page `T2, T1` (two items) and clears `hasMore`, and a
further sentinel-visible event issues no fetch. -/
theorem c2_twenty_record_scenario :
    scState1.devotions = (List.range 9).map (fun k => rec20 (20 - k)) ∧
    scState1.hasMore = true ∧
    scFetch2.2 = true ∧ scFetch2.1.pending = some (false, 9) ∧
    scState2.devotions = (List.range 18).map (fun k => rec20 (20 - k)) ∧
    scState2.hasMore = true ∧
    scFetch3.2 = true ∧ scFetch3.1.pending = some (false, 18) ∧
    (fetchRange store20 18 26).length = 2 ∧
    scState3.devotions = (List.range 20).map (fun k => rec20 (20 - k)) ∧
    scState3.hasMore = false ∧
    step scState3 (Event.sentinel true) = (scState3, false) := by
  decide

/-- C3: once a fetch settles with fewer than `pageSize` items, `hasMore` is
false and stays false, and no later sequence of events makes the view issue
another fetch. -/
theorem c3_exhausted_terminal (s : ReadState) (pr : Bool × Nat)
    (items : List Devotion) (tr : List Event)
    (hp : s.pending = some pr) (hlen : items.length < pageSize) :
    (step s (Event.settle (some items))).1.hasMore = false ∧
    fetchCount (step s (Event.settle (some items))).1 tr = 0 ∧
    (runTrace (step s (Event.settle (some items))).1 tr).hasMore = false := by
  obtain ⟨b, lo⟩ := pr
  have h1 : (step s (Event.settle (some items))).1.hasMore = false := by
    simp [step, hp, settleLoad, hlen]
  exact ⟨h1, (exhausted_trace _ tr h1).1, (exhausted_trace _ tr h1).2⟩

/-- C3 witness: the mounted view settling its initial load with an empty
page is exhausted, and a later sentinel event issues no fetch. -/
theorem c3_witness :
    (step mountedState (Event.settle (some []))).1.hasMore = false ∧
    fetchCount (step mountedState (Event.settle (some []))).1
      [Event.sentinel true] = 0 ∧
    (runTrace (step mountedState (Event.settle (some []))).1
      [Event.sentinel true]).hasMore = false := by
  exact c3_exhausted_terminal mountedState (true, 0) [] [Event.sentinel true]
    rfl (by decide)

/-- C4: at most one fetch is in flight: in every reachable state a sentinel
event arriving while a request is pending leaves the state unchanged and
issues nothing, and an event that does issue a fetch finds no request
pending. -/
theorem c4_single_flight (s : ReadState) (h : Reachable s) :
    (∀ v, s.pending.isSome = true → step s (Event.sentinel v) = (s, false)) ∧
    (∀ e : Event, (step s e).2 = true → s.pending = none) := by
  have inv := single_flight_inv s h
  constructor
  · intro v hp
    have hor := inv hp
    have hguard : (v && s.hasMore && !s.loadingMore && !s.loading) = false := by
      cases hl : s.loading <;> cases hm : s.loadingMore <;> simp_all
    simp [step, hguard]
  · intro e he
    cases e with
    | settle res =>
      cases hpend : s.pending with
      | none => rfl
      | some pr =>
        obtain ⟨b, lo⟩ := pr
        simp [step, hpend] at he
    | sentinel v =>
      by_cases hg : (v && s.hasMore && !s.loadingMore && !s.loading) = true
      · have hl : s.loading = false := by
          cases hl : s.loading <;> simp_all
        have hm : s.loadingMore = false := by
          cases hm : s.loadingMore <;> simp_all
        have hns : ¬ s.pending.isSome = true := by
          intro hsome
          have := inv hsome
          simp [hl, hm] at this
        exact Option.not_isSome_iff_eq_none.mp hns
      · simp [step, hg] at he

/-- C4 witness: in the mounted state the initial fetch is in flight, and a
sentinel-visible event is ignored. -/
theorem c4_witness :
    step mountedState (Event.sentinel true) = (mountedState, false) := by
  have h := c4_single_flight mountedState Reachable.mounted
  exact h.1 true rfl

/-- C5: every failing store operation leaves the cache where it was: a
failed page fetch changes neither the cache (hence the next window start)
nor `hasMore`, and a failed insert, update or delete never reaches the
cache mutation. -/
theorem c5_failure_leaves_cache (s : ReadState) (store cache : List Devotion)
    (r : Devotion) (i : Nat) (p : Patch) :
    (step s (Event.settle none)).1.devotions = s.devotions ∧
    (step s (Event.settle none)).1.hasMore = s.hasMore ∧
    (createDevotion store cache r false).2 = cache ∧
    updateDevotion cache i p false = cache ∧
    deleteDevotion cache i false = cache := by
  refine ⟨?_, ?_, rfl, rfl, rfl⟩
  · cases hpend : s.pending with
    | none => simp [step, hpend]
    | some pr =>
      obtain ⟨b, lo⟩ := pr
      simp [step, hpend, settleLoad]
  · cases hpend : s.pending with
    | none => simp [step, hpend]
    | some pr =>
      obtain ⟨b, lo⟩ := pr
      simp [step, hpend, settleLoad]

/-- C6: after a successful update, the unique cache entry with the id has
its mutable fields replaced in place (same position), its id and creation
timestamp kept; when the id is absent the cache is unchanged. -/
theorem c6_update_in_place (cache l₁ l₂ : List Devotion) (d : Devotion)
    (i : Nat) (p : Patch) :
    ((∀ a ∈ cache, a.id ≠ i) → applyUpdate cache i p = cache) ∧
    (((l₁ ++ d :: l₂).map (fun a => a.id)).Nodup → d.id = i →
      applyUpdate (l₁ ++ d :: l₂) i p = l₁ ++ patchDevotion d p :: l₂ ∧
      (patchDevotion d p).id = d.id ∧
      (patchDevotion d p).createdAt = d.createdAt ∧
      (patchDevotion d p).title = p.title ∧
      (patchDevotion d p).verse = p.verse ∧
      (patchDevotion d p).content = p.content ∧
      (patchDevotion d p).date = p.date) := by
  refine ⟨applyUpdate_absent cache i p, ?_⟩
  intro hnd hd
  have hne := (nodup_split_ne l₁ d l₂ hnd).1
  exact ⟨applyUpdate_found l₁ d l₂ i p
      (fun a ha hai => hne a ha (hai.trans hd.symm)) hd,
    rfl, rfl, rfl, rfl, rfl, rfl⟩

/-- C6 witness: updating id 2 in a two-entry cache patches the second entry
in place; updating an absent id changes nothing. -/
theorem c6_witness :
    applyUpdate [dA, dB] 2 pX = [dA, patchDevotion dB pX] ∧
    applyUpdate [dA, dB] 7 pX = [dA, dB] := by
  have h := c6_update_in_place [dA, dB] [dA] [] dB 2 pX
  have h2 := c6_update_in_place [dA, dB] [dA] [] dB 7 pX
  exact ⟨(h.2 (by decide) rfl).1, h2.1 (by decide)⟩

/-- C7: after a successful delete of an id present in a cache with unique
ids, exactly the matching entry is removed, the others keeping their
relative order; deleting an absent id changes nothing. -/
theorem c7_delete_exactly_one (cache l₁ l₂ : List Devotion) (d : Devotion)
    (i : Nat) :
    ((∀ a ∈ cache, a.id ≠ i) → applyDelete cache i = cache) ∧
    (((l₁ ++ d :: l₂).map (fun a => a.id)).Nodup → d.id = i →
      applyDelete (l₁ ++ d :: l₂) i = l₁ ++ l₂) := by
  constructor
  · intro h
    rw [applyDelete]
    exact List.filter_eq_self.mpr (fun a ha => by simp [h a ha])
  · intro hnd hd
    obtain ⟨h1, h2⟩ := nodup_split_ne l₁ d l₂ hnd
    exact applyDelete_found l₁ d l₂ i
      (fun a ha hai => h1 a ha (hai.trans hd.symm))
      (fun a ha hai => h2 a ha (hai.trans hd.symm)) hd

/-- C7 witness: deleting id 1 from a two-entry cache removes exactly the
first entry; deleting an absent id changes nothing. -/
theorem c7_witness :
    applyDelete [dA, dB] 1 = [dB] ∧ applyDelete [dA, dB] 7 = [dA, dB] := by
  have h := c7_delete_exactly_one [dA, dB] [] [dB] dA 1
  have h2 := c7_delete_exactly_one [dA, dB] [] [dB] dA 7
  exact ⟨h.2 (by decide) rfl, h2.1 (by decide)⟩

/-- C8: a successful insert reloads the cache in full from the store, and
when the new record has the strictly greatest creation timestamp it comes
back as the first cache element. -/
theorem c8_create_reloads (store cache : List Devotion) (r : Devotion) :
    (createDevotion store cache r true).2 = fetchAll (store ++ [r]) ∧
    ((∀ d ∈ store, d.createdAt < r.createdAt) →
      ((createDevotion store cache r true).2).head? = some r) := by
  refine ⟨rfl, ?_⟩
  intro h
  show (sortByCreatedAtDesc (store ++ [r])).head? = some r
  exact head_of_strict_max store r h

/-- C8 witness: inserting the newest record into a one-record store reloads
the cache with it first. -/
theorem c8_witness :
    (createDevotion [dA] [] dB true).2 = fetchAll ([dA] ++ [dB]) ∧
    ((createDevotion [dA] [] dB true).2).head? = some dB := by
  have h := c8_create_reloads [dA] [] dB
  exact ⟨h.1, h.2 (by decide)⟩

/-- C9 counterexample: the reading view's open selection (the record with
id 1) is successfully deleted by the admin (its cache drops the record), yet
the modal does not close and the selection is not cleared. -/
theorem c9_counterexample :
    (appStep (appStep (appInit [dA] [dA]) (AppEvent.openAt 0))
        (AppEvent.adminDelete 1 true)).selected = some dA ∧
    (appStep (appStep (appInit [dA] [dA]) (AppEvent.openAt 0))
        (AppEvent.adminDelete 1 true)).adminCache = [] := by
  decide

/-- C9 (amended): a successful delete mutates only the admin view's cache
and never closes the modal or clears the selection; still no reachable state
of the combined system has the selection referencing a record absent from
the reading view's cache, because that cache never loses entries. -/
theorem c9_no_dangling_selection (s : AppState) (h : AppReachable s)
    (d : Devotion) :
    s.selected = some d → d ∈ s.readCache := by
  induction h with
  | init page0 admin0 => intro hsel; simp [appInit] at hsel
  | @next s e hs ih =>
    cases e with
    | pageLoaded items =>
      intro hsel
      simp only [appStep] at hsel ⊢
      exact List.mem_append.mpr (Or.inl (ih hsel))
    | pageFailed =>
      intro hsel
      simp only [appStep] at hsel ⊢
      exact ih hsel
    | openAt n =>
      intro hsel
      simp only [appStep] at hsel ⊢
      cases hg : s.readCache[n]? with
      | none =>
        rw [hg] at hsel
        exact ih hsel
      | some d2 =>
        rw [hg] at hsel
        simp only [Option.some.injEq] at hsel
        rw [← hsel]
        exact List.getElem?_mem hg
    | close =>
      intro hsel
      simp [appStep] at hsel
    | adminDelete i ok =>
      intro hsel
      simp only [appStep] at hsel ⊢
      exact ih hsel
    | adminUpdate i p ok =>
      intro hsel
      simp only [appStep] at hsel ⊢
      exact ih hsel

/-- C9 witness: after opening the only record and the admin deleting it,
the selected record is still in the reading view's cache. -/
theorem c9_witness :
    dA ∈ (appStep (appStep (appInit [dA] [dA]) (AppEvent.openAt 0))
        (AppEvent.adminDelete 1 true)).readCache := by
  exact c9_no_dangling_selection _
    (AppReachable.next _ (AppReachable.next _ (AppReachable.init [dA] [dA])))
    dA rfl

/-- C10 counterexample: for the verse whose characters are `a`, space, bar,
`b`, the displayed reference is the trimmed `a`, not the raw substring
before the bar, which keeps the trailing space. -/
theorem c10_counterexample :
    getVerseRefDisplay ('a' :: ' ' :: '|' :: 'b' :: []) = ['a'] ∧
    verseRefSpec ('a' :: ' ' :: '|' :: 'b' :: []) = ['a', ' '] ∧
    getVerseRefDisplay ('a' :: ' ' :: '|' :: 'b' :: [])
      ≠ verseRefSpec ('a' :: ' ' :: '|' :: 'b' :: []) := by
  decide

/-- C10 (amended): for every verse string the displayed reference is the
trimmed substring of the verse before the first bar character (the trimmed
whole verse when there is no bar). -/
theorem c10_ref_is_trimmed_head (v : List Char) :
    getVerseRefDisplay v = jsTrim (verseRefSpec v) := by
  rw [getVerseRefDisplay, splitBar_head, verseRefSpec]

end DailyDevotion
